import Mathlib

/-!
Shallow embedding of `src/edge-middleware/ab-testing-statsig/pages/ssr.tsx`:
the `EdgeConfigDataAdapter` class (an `IDataAdapter` bridging Statsig's
pluggable data-source contract to a Vercel Edge Config client) and the
`getServerSideProps` request handler.

Modelling conventions:
* Edge Config values are JSON documents; they are modelled by the inductive
  `EdgeValue` (numbers as integers).  The client (`EdgeConfigClient.get`) is
  a function `String → Option EdgeValue`; `none` models the JS `undefined`
  returned for an absent key, while `EdgeValue.null` models a stored JSON
  `null`.
* Methods that perform network reads additionally return the list of keys
  read from the client, so that "no network call is made" is expressible.
* `async` methods that cannot reject are modelled as total functions.
* The builtin `JSON.stringify` is modelled by `jsonStringify`, producing the
  compact (no-whitespace) JSON text that the builtin produces on JSON
  values, escaping `"` and `\` inside strings.
-/

namespace StatsigEdgeConfig

/-- JSON-like values that the Edge Config client can return.  Numbers are
modelled as integers. -/
inductive EdgeValue where
  | null : EdgeValue
  | bool : Bool → EdgeValue
  | num : Int → EdgeValue
  | str : String → EdgeValue
  | arr : List EdgeValue → EdgeValue
  | obj : List (String × EdgeValue) → EdgeValue

/-- JavaScript truthiness of a stored value, as tested by `if (data)` in the
adapter's `initialize` method. -/
def EdgeValue.truthy : EdgeValue → Bool
  | .null => false
  | .bool b => b
  | .num n => n != 0
  | .str s => s != ""
  | .arr _ => true
  | .obj _ => true

/-- The decimal digit characters. -/
def digitChar : Nat → Char
  | 0 => '0'
  | 1 => '1'
  | 2 => '2'
  | 3 => '3'
  | 4 => '4'
  | 5 => '5'
  | 6 => '6'
  | 7 => '7'
  | 8 => '8'
  | _ => '9'

/-- Decimal digits of a natural number, most significant first. -/
def natChars (n : Nat) : List Char :=
  if _h : n < 10 then [digitChar n]
  else natChars (n / 10) ++ [digitChar (n % 10)]
termination_by n
decreasing_by exact Nat.div_lt_self (by omega) (by omega)

/-- Decimal rendering of an integer (model of JS number-to-string for
integral values). -/
def intChars : Int → List Char
  | .ofNat n => natChars n
  | .negSucc n => '-' :: natChars (n + 1)

/-- JSON string escaping of one character: `"` and `\` get a backslash. -/
def escChar (c : Char) : List Char :=
  if c = '"' ∨ c = '\\' then ['\\', c] else [c]

/-- JSON string escaping of a character list. -/
def escChars : List Char → List Char
  | [] => []
  | c :: cs => escChar c ++ escChars cs

/-- A JSON string literal: quote, escaped contents, quote. -/
def strChars (cs : List Char) : List Char :=
  '"' :: escChars cs ++ ['"']

mutual

/-- Characters of the compact JSON serialization of a value (model of the
builtin `JSON.stringify` on JSON values). -/
def stringifyV : EdgeValue → List Char
  | .null => 'n' :: ['u', 'l', 'l']
  | .bool true => 't' :: ['r', 'u', 'e']
  | .bool false => 'f' :: ['a', 'l', 's', 'e']
  | .num n => intChars n
  | .str s => strChars s.data
  | .arr xs => '[' :: stringifyElems xs ++ [']']
  | .obj kvs => '\x7b' :: stringifyFields kvs ++ ['\x7d']

/-- Comma-separated serialization of array elements. -/
def stringifyElems : List EdgeValue → List Char
  | [] => []
  | [v] => stringifyV v
  | v :: v' :: vs => stringifyV v ++ ',' :: stringifyElems (v' :: vs)

/-- Comma-separated serialization of object fields, each `"key":value`. -/
def stringifyFields : List (String × EdgeValue) → List Char
  | [] => []
  | [(k, v)] => strChars k.data ++ ':' :: stringifyV v
  | (k, v) :: kv :: kvs =>
      strChars k.data ++ ':' :: stringifyV v ++ ',' :: stringifyFields (kv :: kvs)

end

/-- Model of `JSON.stringify` as called in `get`. -/
def jsonStringify (v : EdgeValue) : String :=
  ⟨stringifyV v⟩

/-- An Edge Config client: a key lookup returning a value or `none` for an
absent key (JS `undefined`). -/
abbrev EdgeConfigStore := String → Option EdgeValue

/-- State of an `EdgeConfigDataAdapter` instance: the configured lookup key
(`configSpecsKey`), the client created in the constructor, and the
`supportConfigSpecPolling` flag (declared with initial value `false`). -/
structure EdgeConfigDataAdapter where
  configSpecsKey : String
  edgeConfigClient : EdgeConfigStore
  supportConfigSpecPolling : Bool

/-- The constructor: stores the key and the client built from the
connection string (`createClient` is external, so the model takes the
resulting client directly); the polling flag starts `false`. -/
def EdgeConfigDataAdapter.construct (key : String) (client : EdgeConfigStore) :
    EdgeConfigDataAdapter :=
  { configSpecsKey := key
    edgeConfigClient := client
    supportConfigSpecPolling := false }

/-- An `AdapterResponse`: an optional result string and an optional error,
the error carried as its message. -/
structure AdapterResponse where
  result : Option String := none
  error : Option String := none
deriving DecidableEq, Repr

/-- The adapter's `get` method.  Returns the response together with the
list of keys read from the Edge Config client during the call. -/
def EdgeConfigDataAdapter.get (a : EdgeConfigDataAdapter) (key : String) :
    AdapterResponse × List String :=
  if key ≠ "statsig.cache" then
    ({ error := some "Edge Config Adapter Only Supports Config Specs" }, [])
  else
    match a.edgeConfigClient a.configSpecsKey with
    | none => ({ error := some ("key (" ++ key ++ ") does not exist") }, [a.configSpecsKey])
    | some data => ({ result := some (jsonStringify data) }, [a.configSpecsKey])

/-- The adapter's `set` method: a documented no-op (Statsig's Edge Config
integration keeps config specs synced through Statsig's service). -/
def EdgeConfigDataAdapter.set (a : EdgeConfigDataAdapter)
    (_key : String) (_value : String) (_time : Option Nat) : EdgeConfigDataAdapter :=
  a

/-- The adapter's `initialize` method: one client read of `configSpecsKey`;
if the value is (JS-)truthy the polling flag is set.  Returns the new state
and the list of keys read. -/
def EdgeConfigDataAdapter.init (a : EdgeConfigDataAdapter) :
    EdgeConfigDataAdapter × List String :=
  match a.edgeConfigClient a.configSpecsKey with
  | some data =>
      (if data.truthy then { a with supportConfigSpecPolling := true } else a,
       [a.configSpecsKey])
  | none => (a, [a.configSpecsKey])

/-- The adapter's `shutdown` method: a no-op. -/
def EdgeConfigDataAdapter.shutdown (a : EdgeConfigDataAdapter) : EdgeConfigDataAdapter :=
  a

/-- The adapter's `supportsPollingUpdatesFor` method: the stored flag for
the recognized key, `true` for any other key. -/
def EdgeConfigDataAdapter.supportsPollingUpdatesFor
    (a : EdgeConfigDataAdapter) (key : String) : Bool :=
  if key = "statsig.cache" then a.supportConfigSpecPolling else true

/-- One adapter method call other than `initialize` (used to state which
calls can change the adapter's state). -/
inductive AdapterCall where
  | getCall (key : String)
  | setCall (key : String) (value : String) (time : Option Nat)
  | shutdownCall
  | supportsCall (key : String)

/-- The adapter state after one method call.  `get` and
`supportsPollingUpdatesFor` return values and do not assign to any field;
`set` and `shutdown` have empty bodies. -/
def applyCall (a : EdgeConfigDataAdapter) : AdapterCall → EdgeConfigDataAdapter
  | .getCall key => (a.get key).snd |> fun _ => a
  | .setCall key value time => a.set key value time
  | .shutdownCall => a.shutdown
  | .supportsCall key => (a.supportsPollingUpdatesFor key) |> fun _ => a

/-- The adapter state after a sequence of method calls. -/
def runCalls (a : EdgeConfigDataAdapter) (calls : List AdapterCall) :
    EdgeConfigDataAdapter :=
  calls.foldl applyCall a

/-- The environment variables read by the page handler. -/
structure Env where
  EDGE_CONFIG_ITEM_KEY : String
  STATSIG_SERVER_API_KEY : String

/-- The incoming request context (`context: unknown` in the source); the
handler receives it but never reads it.  Cookies are carried so that
independence from them can be stated. -/
structure RequestContext where
  cookies : List (String × String)

/-- The Statsig server SDK, an external dependency, abstracted by its
operations used in `getServerSideProps`: `initialize` (secret key and data
adapter, producing an SDK state), `getConfig(user, name).getValue(field,
fallback)` (collapsed into one string-valued lookup), and `flush`. -/
structure StatsigSDK (σ : Type) where
  sdkInit : String → EdgeConfigDataAdapter → σ
  getConfigValue : σ → String → String → String → String → String
  flush : σ → σ

/-- The props object handed to the page renderer. -/
structure PropsResult where
  props : List (String × String)
deriving DecidableEq, Repr

/-- Model of `getServerSideProps`: build a fresh adapter from
`EDGE_CONFIG_ITEM_KEY` (and the client from `EDGE_CONFIG`), initialize the
SDK with the server secret and the adapter, evaluate the experiment
`statsig_example` for the literal user id `1234`, read the `bucket` field
with fallback `default`, flush, and return an empty props object.  The
result is (props, bucket, final SDK state); the request context is unused,
as in the source. -/
def getServerSideProps {σ : Type} (sdk : StatsigSDK σ) (env : Env)
    (edgeConfig : EdgeConfigStore) (_context : RequestContext) :
    PropsResult × String × σ :=
  let dataAdapter := EdgeConfigDataAdapter.construct env.EDGE_CONFIG_ITEM_KEY edgeConfig
  let st := sdk.sdkInit env.STATSIG_SERVER_API_KEY dataAdapter
  let bucket := sdk.getConfigValue st "1234" "statsig_example" "bucket" "default"
  let st2 := sdk.flush st
  (⟨[]⟩, bucket, st2)

/-- Numeric value of a digit character. -/
def dval (c : Char) : Nat :=
  c.toNat - 48

/-- Value of a digit string read in base 10. -/
def digitsVal (cs : List Char) : Nat :=
  cs.foldl (fun a c => 10 * a + dval c) 0

/-- The input does not begin with a decimal digit.  Inside a serialized
array or object, every value is followed by a delimiter, never by a digit,
which is what makes number serializations unambiguous in context. -/
def noDigStart : List Char → Prop
  | [] => True
  | c :: _ => c.isDigit = false

/-- Constructor tag of a value, used to discriminate serializations by
their first character. -/
def tagOf : EdgeValue → Nat
  | .null => 0
  | .bool _ => 1
  | .num _ => 2
  | .str _ => 3
  | .arr _ => 4
  | .obj _ => 5

/-- Class of a character viewed as the first character of a
serialization: each constructor's output starts in its own class, and
delimiters are in none of them. -/
def charTag (c : Char) : Nat :=
  if c = 'n' then 0
  else if c = 't' ∨ c = 'f' then 1
  else if c = '-' ∨ c.isDigit = true then 2
  else if c = '"' then 3
  else if c = '[' then 4
  else if c = '\x7b' then 5
  else 6

theorem dval_digitChar (d : Nat) (h : d < 10) : dval (digitChar d) = d := by
  interval_cases d <;> decide

theorem isDigit_digitChar (d : Nat) (h : d < 10) : (digitChar d).isDigit = true := by
  interval_cases d <;> decide

theorem natChars_digits (n : Nat) : ∀ c ∈ natChars n, c.isDigit = true := by
  induction n using natChars.induct with
  | case1 n h =>
      intro c hc
      rw [natChars] at hc
      simp only [h, dite_true] at hc
      simp only [List.mem_singleton] at hc
      subst hc
      exact isDigit_digitChar n h
  | case2 n h ih =>
      intro c hc
      rw [natChars] at hc
      simp only [h, dite_false] at hc
      rcases List.mem_append.mp hc with hc | hc
      · exact ih c hc
      · rw [List.mem_singleton] at hc
        subst hc
        exact isDigit_digitChar _ (Nat.mod_lt _ (by omega))

theorem digitsVal_append (cs : List Char) (c : Char) :
    digitsVal (cs ++ [c]) = 10 * digitsVal cs + dval c := by
  simp [digitsVal, List.foldl_append]

theorem digitsVal_natChars (n : Nat) : digitsVal (natChars n) = n := by
  induction n using natChars.induct with
  | case1 n h =>
      rw [natChars]
      simp only [h, dite_true]
      simp only [digitsVal, List.foldl]
      rw [dval_digitChar n h]
      omega
  | case2 n h ih =>
      rw [natChars]
      simp only [h, dite_false]
      rw [digitsVal_append, ih, dval_digitChar _ (Nat.mod_lt _ (by omega))]
      omega

theorem natChars_inj (n m : Nat) (h : natChars n = natChars m) : n = m := by
  have h1 := digitsVal_natChars n
  rw [h, digitsVal_natChars] at h1
  omega

theorem natChars_head (n : Nat) : ∃ c t, natChars n = c :: t ∧ c.isDigit = true := by
  induction n using natChars.induct with
  | case1 n h =>
      refine ⟨digitChar n, [], ?_, isDigit_digitChar n h⟩
      rw [natChars]
      simp only [h, dite_true]
  | case2 n h ih =>
      obtain ⟨c, t, hct, hc⟩ := ih
      refine ⟨c, t ++ [digitChar (n % 10)], ?_, hc⟩
      rw [natChars]
      simp only [h, dite_false, hct, List.cons_append]

theorem digits_munch (d1 : List Char) : ∀ (d2 r1 r2 : List Char),
    (∀ c ∈ d1, c.isDigit = true) → (∀ c ∈ d2, c.isDigit = true) →
    noDigStart r1 → noDigStart r2 → d1 ++ r1 = d2 ++ r2 → d1 = d2 ∧ r1 = r2 := by
  induction d1 with
  | nil =>
      intro d2 r1 r2 _ hd2 hr1 _ h
      cases d2 with
      | nil => exact ⟨rfl, h⟩
      | cons b d2 =>
          exfalso
          simp only [List.nil_append, List.cons_append] at h
          rw [h] at hr1
          simp only [noDigStart] at hr1
          exact absurd (hd2 b (by simp)) (by simp [hr1])
  | cons a d1 ih =>
      intro d2 r1 r2 hd1 hd2 hr1 hr2 h
      cases d2 with
      | nil =>
          exfalso
          simp only [List.cons_append, List.nil_append] at h
          rw [← h] at hr2
          simp only [noDigStart] at hr2
          exact absurd (hd1 a (by simp)) (by simp [hr2])
      | cons b d2 =>
          simp only [List.cons_append, List.cons.injEq] at h
          obtain ⟨hab, htail⟩ := h
          obtain ⟨e1, e2⟩ := ih d2 r1 r2 (fun c hc => hd1 c (by simp [hc]))
            (fun c hc => hd2 c (by simp [hc])) hr1 hr2 htail
          exact ⟨by rw [hab, e1], e2⟩

theorem intChars_unamb (n m : Int) (r1 r2 : List Char)
    (h : intChars n ++ r1 = intChars m ++ r2)
    (hr1 : noDigStart r1) (hr2 : noDigStart r2) : n = m ∧ r1 = r2 := by
  cases n with
  | ofNat a =>
      cases m with
      | ofNat b =>
          simp only [intChars] at h
          obtain ⟨e1, e2⟩ := digits_munch (natChars a) (natChars b) r1 r2
            (natChars_digits a) (natChars_digits b) hr1 hr2 h
          exact ⟨by rw [natChars_inj a b e1], e2⟩
      | negSucc b =>
          exfalso
          simp only [intChars] at h
          obtain ⟨c, t, hct, hc⟩ := natChars_head a
          rw [hct] at h
          simp only [List.cons_append] at h
          injection h with h1 _
          rw [h1] at hc
          exact absurd hc (by decide)
  | negSucc a =>
      cases m with
      | ofNat b =>
          exfalso
          simp only [intChars] at h
          obtain ⟨c, t, hct, hc⟩ := natChars_head b
          rw [hct] at h
          simp only [List.cons_append] at h
          injection h with h1 _
          rw [← h1] at hc
          exact absurd hc (by decide)
      | negSucc b =>
          simp only [intChars, List.cons_append] at h
          injection h with _ h2
          obtain ⟨e1, e2⟩ := digits_munch (natChars (a + 1)) (natChars (b + 1)) r1 r2
            (natChars_digits _) (natChars_digits _) hr1 hr2 h2
          have hab : a = b := by
            have := natChars_inj _ _ e1
            omega
          exact ⟨by rw [hab], e2⟩

theorem escChars_unamb (cs : List Char) : ∀ (ds r1 r2 : List Char),
    escChars cs ++ '"' :: r1 = escChars ds ++ '"' :: r2 → cs = ds ∧ r1 = r2 := by
  induction cs with
  | nil =>
      intro ds r1 r2 h
      cases ds with
      | nil =>
          simp only [escChars, List.nil_append] at h
          injection h with _ h2
          exact ⟨rfl, h2⟩
      | cons d ds =>
          exfalso
          by_cases hd : d = '"' ∨ d = '\\'
          · simp only [escChars, escChar, if_pos hd, List.nil_append, List.cons_append,
              List.append_assoc] at h
            injection h with h1 _
            exact absurd h1 (by decide)
          · simp only [escChars, escChar, if_neg hd, List.nil_append, List.cons_append,
              List.append_assoc] at h
            injection h with h1 _
            exact hd (Or.inl h1.symm)
  | cons c cs ih =>
      intro ds r1 r2 h
      cases ds with
      | nil =>
          exfalso
          by_cases hc : c = '"' ∨ c = '\\'
          · simp only [escChars, escChar, if_pos hc, List.nil_append, List.cons_append,
              List.append_assoc] at h
            injection h with h1 _
            exact absurd h1 (by decide)
          · simp only [escChars, escChar, if_neg hc, List.nil_append, List.cons_append,
              List.append_assoc] at h
            injection h with h1 _
            exact hc (Or.inl h1)
      | cons d ds =>
          by_cases hc : c = '"' ∨ c = '\\' <;> by_cases hd : d = '"' ∨ d = '\\'
          · simp only [escChars, escChar, if_pos hc, if_pos hd, List.cons_append,
              List.append_assoc] at h
            injection h with _ h2
            injection h2 with h2 h3
            obtain ⟨e1, e2⟩ := ih ds r1 r2 h3
            exact ⟨by rw [h2, e1], e2⟩
          · exfalso
            simp only [escChars, escChar, if_pos hc, if_neg hd, List.cons_append,
              List.append_assoc] at h
            injection h with h1 _
            exact absurd (Or.inr h1.symm) hd
          · exfalso
            simp only [escChars, escChar, if_neg hc, if_pos hd, List.cons_append,
              List.append_assoc] at h
            injection h with h1 _
            exact absurd (Or.inr h1) hc
          · simp only [escChars, escChar, if_neg hc, if_neg hd, List.cons_append,
              List.append_assoc] at h
            injection h with h1 h2
            obtain ⟨e1, e2⟩ := ih ds r1 r2 h2
            exact ⟨by rw [h1, e1], e2⟩

theorem strChars_unamb (s t : List Char) (r1 r2 : List Char)
    (h : strChars s ++ r1 = strChars t ++ r2) : s = t ∧ r1 = r2 := by
  simp only [strChars, List.cons_append, List.append_assoc, List.singleton_append] at h
  injection h with _ h2
  exact escChars_unamb s t r1 r2 h2

theorem stringData_inj (s t : String) (h : s.data = t.data) : s = t := by
  exact String.ext h

theorem charTag_isDigit (c : Char) (h : c.isDigit = true) : charTag c = 2 := by
  have h0 : ¬c = 'n' := by
    rintro rfl
    exact absurd h (by decide)
  have h1 : ¬(c = 't' ∨ c = 'f') := by
    rintro (rfl | rfl) <;> exact absurd h (by decide)
  simp only [charTag, if_neg h0, if_neg h1, if_pos (Or.inr h)]

theorem tagOf_lt (v : EdgeValue) : tagOf v < 6 := by
  cases v <;> simp only [tagOf] <;> omega

theorem stringifyV_head (v : EdgeValue) :
    ∃ c t, stringifyV v = c :: t ∧ charTag c = tagOf v := by
  cases v with
  | null => exact ⟨'n', _, rfl, by decide⟩
  | bool b => cases b with
      | true => exact ⟨'t', _, rfl, by decide⟩
      | false => exact ⟨'f', _, rfl, by decide⟩
  | num n =>
      cases n with
      | ofNat a =>
          obtain ⟨c, t, hct, hc⟩ := natChars_head a
          refine ⟨c, t, ?_, ?_⟩
          · simp only [stringifyV, intChars]
            exact hct
          · rw [charTag_isDigit c hc]
            simp only [tagOf]
      | negSucc a => exact ⟨'-', _, rfl, by simp only [tagOf]; decide⟩
  | str s => exact ⟨'"', _, rfl, by simp only [tagOf]; decide⟩
  | arr xs => exact ⟨'[', _, rfl, by simp only [tagOf]; decide⟩
  | obj kvs => exact ⟨'\x7b', _, rfl, by simp only [tagOf]; decide⟩

theorem stringify_head_tag (v w : EdgeValue) (r1 r2 : List Char)
    (h : stringifyV v ++ r1 = stringifyV w ++ r2) : tagOf v = tagOf w := by
  obtain ⟨c1, t1, h1, e1⟩ := stringifyV_head v
  obtain ⟨c2, t2, h2, e2⟩ := stringifyV_head w
  rw [h1, h2, List.cons_append, List.cons_append] at h
  injection h with hc _
  rw [← e1, ← e2, hc]

theorem stringifyV_not_head (v : EdgeValue) (c : Char) (hc : charTag c = 6)
    (t r : List Char) (h : c :: t = stringifyV v ++ r) : False := by
  obtain ⟨c1, t1, h1, e1⟩ := stringifyV_head v
  rw [h1, List.cons_append] at h
  injection h with h2 _
  rw [h2, e1] at hc
  have := tagOf_lt v
  omega

theorem stringifyElems_cons (v : EdgeValue) (vs : List EdgeValue) :
    ∃ rest, stringifyElems (v :: vs) = stringifyV v ++ rest := by
  cases vs with
  | nil => exact ⟨[], by simp [stringifyElems]⟩
  | cons v' vs => exact ⟨',' :: stringifyElems (v' :: vs), rfl⟩

theorem stringifyFields_cons (k : String) (v : EdgeValue)
    (kvs : List (String × EdgeValue)) :
    ∃ rest, stringifyFields ((k, v) :: kvs) =
      strChars k.data ++ (':' :: (stringifyV v ++ rest)) := by
  cases kvs with
  | nil =>
      refine ⟨[], ?_⟩
      simp only [stringifyFields, List.append_nil]
  | cons kv kvs =>
      refine ⟨',' :: stringifyFields (kv :: kvs), ?_⟩
      simp only [stringifyFields, List.cons_append, List.append_assoc]

theorem noDig_cons (c : Char) (h : c.isDigit = false) (r : List Char) :
    noDigStart (c :: r) :=
  h

/-- Unambiguity of the serialization: a serialized value followed by a
rest that does not begin with a digit determines the value and the rest.
Proved simultaneously with the corresponding statements for bracketed
element lists and brace-closed field lists. -/
theorem stringify_unamb : ∀ (v w : EdgeValue) (r1 r2 : List Char),
    stringifyV v ++ r1 = stringifyV w ++ r2 → noDigStart r1 → noDigStart r2 →
    v = w ∧ r1 = r2 := by
  intro v
  refine stringifyV.induct
    (fun v => ∀ (w : EdgeValue) (r1 r2 : List Char),
      stringifyV v ++ r1 = stringifyV w ++ r2 → noDigStart r1 → noDigStart r2 →
      v = w ∧ r1 = r2)
    (fun kvs => ∀ (ws : List (String × EdgeValue)) (r1 r2 : List Char),
      stringifyFields kvs ++ '\x7d' :: r1 = stringifyFields ws ++ '\x7d' :: r2 →
      kvs = ws ∧ r1 = r2)
    (fun xs => ∀ (ys : List EdgeValue) (r1 r2 : List Char),
      stringifyElems xs ++ ']' :: r1 = stringifyElems ys ++ ']' :: r2 →
      xs = ys ∧ r1 = r2)
    ?_ ?_ ?_ ?_ ?_ ?_ ?_ ?_ ?_ ?_ ?_ ?_ ?_ v
  · -- value: null
    intro w r1 r2 h hr1 hr2
    have htag := stringify_head_tag _ _ _ _ h
    cases w with
    | null => exact ⟨rfl, List.append_cancel_left h⟩
    | bool b => simp only [tagOf] at htag; exact absurd htag (by decide)
    | num n => simp only [tagOf] at htag; exact absurd htag (by decide)
    | str s => simp only [tagOf] at htag; exact absurd htag (by decide)
    | arr ys => simp only [tagOf] at htag; exact absurd htag (by decide)
    | obj ws => simp only [tagOf] at htag; exact absurd htag (by decide)
  · -- value: bool true
    intro w r1 r2 h hr1 hr2
    have htag := stringify_head_tag _ _ _ _ h
    cases w with
    | null => simp only [tagOf] at htag; exact absurd htag (by decide)
    | bool b =>
        cases b with
        | true => exact ⟨rfl, List.append_cancel_left h⟩
        | false =>
            exfalso
            simp only [stringifyV, List.cons_append] at h
            injection h with h1 _
            exact absurd h1 (by decide)
    | num n => simp only [tagOf] at htag; exact absurd htag (by decide)
    | str s => simp only [tagOf] at htag; exact absurd htag (by decide)
    | arr ys => simp only [tagOf] at htag; exact absurd htag (by decide)
    | obj ws => simp only [tagOf] at htag; exact absurd htag (by decide)
  · -- value: bool false
    intro w r1 r2 h hr1 hr2
    have htag := stringify_head_tag _ _ _ _ h
    cases w with
    | null => simp only [tagOf] at htag; exact absurd htag (by decide)
    | bool b =>
        cases b with
        | false => exact ⟨rfl, List.append_cancel_left h⟩
        | true =>
            exfalso
            simp only [stringifyV, List.cons_append] at h
            injection h with h1 _
            exact absurd h1 (by decide)
    | num n => simp only [tagOf] at htag; exact absurd htag (by decide)
    | str s => simp only [tagOf] at htag; exact absurd htag (by decide)
    | arr ys => simp only [tagOf] at htag; exact absurd htag (by decide)
    | obj ws => simp only [tagOf] at htag; exact absurd htag (by decide)
  · -- value: num
    intro n w r1 r2 h hr1 hr2
    have htag := stringify_head_tag _ _ _ _ h
    cases w with
    | null => simp only [tagOf] at htag; exact absurd htag (by decide)
    | bool b => simp only [tagOf] at htag; exact absurd htag (by decide)
    | num m =>
        simp only [stringifyV] at h
        obtain ⟨e1, e2⟩ := intChars_unamb n m r1 r2 h hr1 hr2
        exact ⟨by rw [e1], e2⟩
    | str s => simp only [tagOf] at htag; exact absurd htag (by decide)
    | arr ys => simp only [tagOf] at htag; exact absurd htag (by decide)
    | obj ws => simp only [tagOf] at htag; exact absurd htag (by decide)
  · -- value: str
    intro s w r1 r2 h hr1 hr2
    have htag := stringify_head_tag _ _ _ _ h
    cases w with
    | null => simp only [tagOf] at htag; exact absurd htag (by decide)
    | bool b => simp only [tagOf] at htag; exact absurd htag (by decide)
    | num m => simp only [tagOf] at htag; exact absurd htag (by decide)
    | str t =>
        simp only [stringifyV] at h
        obtain ⟨e1, e2⟩ := strChars_unamb s.data t.data r1 r2 h
        exact ⟨by rw [stringData_inj s t e1], e2⟩
    | arr ys => simp only [tagOf] at htag; exact absurd htag (by decide)
    | obj ws => simp only [tagOf] at htag; exact absurd htag (by decide)
  · -- value: arr
    intro xs ihq w r1 r2 h hr1 hr2
    have htag := stringify_head_tag _ _ _ _ h
    cases w with
    | null => simp only [tagOf] at htag; exact absurd htag (by decide)
    | bool b => simp only [tagOf] at htag; exact absurd htag (by decide)
    | num m => simp only [tagOf] at htag; exact absurd htag (by decide)
    | str t => simp only [tagOf] at htag; exact absurd htag (by decide)
    | arr ys =>
        simp only [stringifyV, List.cons_append, List.append_assoc,
          List.singleton_append] at h
        injection h with _ h2
        obtain ⟨e1, e2⟩ := ihq ys r1 r2 h2
        exact ⟨by rw [e1], e2⟩
    | obj ws => simp only [tagOf] at htag; exact absurd htag (by decide)
  · -- value: obj
    intro kvs ihr w r1 r2 h hr1 hr2
    have htag := stringify_head_tag _ _ _ _ h
    cases w with
    | null => simp only [tagOf] at htag; exact absurd htag (by decide)
    | bool b => simp only [tagOf] at htag; exact absurd htag (by decide)
    | num m => simp only [tagOf] at htag; exact absurd htag (by decide)
    | str t => simp only [tagOf] at htag; exact absurd htag (by decide)
    | arr ys => simp only [tagOf] at htag; exact absurd htag (by decide)
    | obj ws =>
        simp only [stringifyV, List.cons_append, List.append_assoc,
          List.singleton_append] at h
        injection h with _ h2
        obtain ⟨e1, e2⟩ := ihr ws r1 r2 h2
        exact ⟨by rw [e1], e2⟩
  · -- elements: nil
    intro ys r1 r2 h
    cases ys with
    | nil =>
        simp only [stringifyElems, List.nil_append] at h
        injection h with _ h2
        exact ⟨rfl, h2⟩
    | cons y ys' =>
        exfalso
        obtain ⟨rest, hrest⟩ := stringifyElems_cons y ys'
        rw [hrest] at h
        simp only [stringifyElems, List.nil_append, List.append_assoc] at h
        exact stringifyV_not_head y ']' (by decide) r1 _ h
  · -- elements: singleton
    intro v ihp ys r1 r2 h
    cases ys with
    | nil =>
        exfalso
        simp only [stringifyElems, List.nil_append] at h
        exact stringifyV_not_head v ']' (by decide) r2 _ h.symm
    | cons y ys' =>
        cases ys' with
        | nil =>
            simp only [stringifyElems] at h
            obtain ⟨e1, e2⟩ := ihp y (']' :: r1) (']' :: r2) h
              (noDig_cons ']' (by decide) _) (noDig_cons ']' (by decide) _)
            injection e2 with _ e3
            exact ⟨by rw [e1], e3⟩
        | cons y2 ys'' =>
            exfalso
            simp only [stringifyElems, List.cons_append, List.append_assoc] at h
            obtain ⟨e1, e2⟩ := ihp y _ _ h
              (noDig_cons ']' (by decide) _) (noDig_cons ',' (by decide) _)
            injection e2 with e3 _
            exact absurd e3 (by decide)
  · -- elements: two or more
    intro v v' vs ihp ihq ys r1 r2 h
    cases ys with
    | nil =>
        exfalso
        obtain ⟨rest, hrest⟩ := stringifyElems_cons v (v' :: vs)
        rw [hrest] at h
        simp only [stringifyElems, List.nil_append, List.append_assoc] at h
        exact stringifyV_not_head v ']' (by decide) r2 _ h.symm
    | cons y ys' =>
        cases ys' with
        | nil =>
            exfalso
            simp only [stringifyElems, List.cons_append, List.append_assoc] at h
            obtain ⟨e1, e2⟩ := ihp y _ _ h
              (noDig_cons ',' (by decide) _) (noDig_cons ']' (by decide) _)
            injection e2 with e3 _
            exact absurd e3 (by decide)
        | cons y2 ys'' =>
            simp only [stringifyElems, List.cons_append, List.append_assoc] at h
            obtain ⟨e1, e2⟩ := ihp y _ _ h
              (noDig_cons ',' (by decide) _) (noDig_cons ',' (by decide) _)
            injection e2 with _ e3
            obtain ⟨e4, e5⟩ := ihq (y2 :: ys'') r1 r2 e3
            exact ⟨by rw [e1, e4], e5⟩
  · -- fields: nil
    intro ws r1 r2 h
    cases ws with
    | nil =>
        simp only [stringifyFields, List.nil_append] at h
        injection h with _ h2
        exact ⟨rfl, h2⟩
    | cons kv ws' =>
        exfalso
        obtain ⟨k, v⟩ := kv
        obtain ⟨rest, hrest⟩ := stringifyFields_cons k v ws'
        rw [hrest] at h
        simp only [stringifyFields, strChars, List.nil_append, List.cons_append,
          List.append_assoc] at h
        injection h with h1 _
        exact absurd h1 (by decide)
  · -- fields: singleton
    intro k v ihp ws r1 r2 h
    cases ws with
    | nil =>
        exfalso
        simp only [stringifyFields, strChars, List.nil_append, List.cons_append,
          List.append_assoc] at h
        injection h with h1 _
        exact absurd h1 (by decide)
    | cons kv ws' =>
        obtain ⟨k2, v2⟩ := kv
        cases ws' with
        | nil =>
            simp only [stringifyFields, List.cons_append, List.append_assoc] at h
            obtain ⟨ek, er⟩ := strChars_unamb k.data k2.data _ _ h
            injection er with _ er2
            obtain ⟨e1, e2⟩ := ihp v2 _ _ er2
              (noDig_cons '\x7d' (by decide) _) (noDig_cons '\x7d' (by decide) _)
            injection e2 with _ e3
            refine ⟨?_, e3⟩
            rw [stringData_inj k k2 ek, e1]
        | cons kv2 ws'' =>
            exfalso
            obtain ⟨k3, v3⟩ := kv2
            simp only [stringifyFields, List.cons_append, List.append_assoc] at h
            obtain ⟨ek, er⟩ := strChars_unamb k.data k2.data _ _ h
            injection er with _ er2
            obtain ⟨e1, e2⟩ := ihp v2 _ _ er2
              (noDig_cons '\x7d' (by decide) _) (noDig_cons ',' (by decide) _)
            injection e2 with e3 _
            exact absurd e3 (by decide)
  · -- fields: two or more
    intro k v kv kvs ihp ihr ws r1 r2 h
    cases ws with
    | nil =>
        exfalso
        simp only [stringifyFields, strChars, List.nil_append, List.cons_append,
          List.append_assoc] at h
        injection h with h1 _
        exact absurd h1 (by decide)
    | cons kv2 ws' =>
        obtain ⟨k2, v2⟩ := kv2
        cases ws' with
        | nil =>
            exfalso
            simp only [stringifyFields, List.cons_append, List.append_assoc] at h
            obtain ⟨ek, er⟩ := strChars_unamb k.data k2.data _ _ h
            injection er with _ er2
            obtain ⟨e1, e2⟩ := ihp v2 _ _ er2
              (noDig_cons ',' (by decide) _) (noDig_cons '\x7d' (by decide) _)
            injection e2 with e3 _
            exact absurd e3 (by decide)
        | cons kv3 ws'' =>
            obtain ⟨k3, v3⟩ := kv3
            simp only [stringifyFields, List.cons_append, List.append_assoc] at h
            obtain ⟨ek, er⟩ := strChars_unamb k.data k2.data _ _ h
            injection er with _ er2
            obtain ⟨e1, e2⟩ := ihp v2 _ _ er2
              (noDig_cons ',' (by decide) _) (noDig_cons ',' (by decide) _)
            injection e2 with _ e3
            obtain ⟨e4, e5⟩ := ihr ((k3, v3) :: ws'') r1 r2 e3
            refine ⟨?_, e5⟩
            rw [stringData_inj k k2 ek, e1, e4]

theorem stringifyV_inj (v w : EdgeValue) (h : stringifyV v = stringifyV w) : v = w := by
  have h2 : stringifyV v ++ [] = stringifyV w ++ [] := by
    simp [h]
  exact (stringify_unamb v w [] [] h2 trivial trivial).1

theorem jsonStringify_inj (v w : EdgeValue)
    (h : jsonStringify v = jsonStringify w) : v = w := by
  apply stringifyV_inj
  exact congrArg String.data h

/-- C1: for every key other than the recognized config-specs key
`statsig.cache`, `get` returns a response whose error is the
unsupported-key error and whose result is absent, and no read of the Edge
Config client is performed during the call. -/
theorem get_unsupported_key (a : EdgeConfigDataAdapter) (key : String)
    (h : key ≠ "statsig.cache") :
    a.get key =
      ({ result := none
         error := some "Edge Config Adapter Only Supports Config Specs" }, []) := by
  simp [EdgeConfigDataAdapter.get, h]

/-- Witness for C1 at the concrete key `gate_overrides`. -/
theorem get_unsupported_key_witness :
    ("gate_overrides" ≠ "statsig.cache") ∧
      (EdgeConfigDataAdapter.construct "item-key" (fun _ => none)).get "gate_overrides" =
        ({ result := none
           error := some "Edge Config Adapter Only Supports Config Specs" }, []) :=
  ⟨by decide, get_unsupported_key _ "gate_overrides" (by decide)⟩

/-- C2: for the recognized key, when the client has no value under the
configured lookup key, `get` returns the not-found error whose message
interpolates the requested key `statsig.cache`, and no result. -/
theorem get_absent_key_not_found (a : EdgeConfigDataAdapter)
    (h : a.edgeConfigClient a.configSpecsKey = none) :
    a.get "statsig.cache" =
      ({ result := none
         error := some ("key (" ++ "statsig.cache" ++ ") does not exist") },
       [a.configSpecsKey]) := by
  simp [EdgeConfigDataAdapter.get, h]

/-- Witness for C2 on a client with an empty store. -/
theorem get_absent_key_not_found_witness :
    (EdgeConfigDataAdapter.construct "item-key" (fun _ => none)).get "statsig.cache" =
      ({ result := none
         error := some ("key (" ++ "statsig.cache" ++ ") does not exist") },
       ["item-key"]) :=
  get_absent_key_not_found (EdgeConfigDataAdapter.construct "item-key" (fun _ => none)) rfl

/-- C5: `set` and `shutdown` are total (never throw) and leave the adapter
state unchanged, so any subsequent `get` result (for the same store
contents) is as if they had not been called. -/
theorem set_shutdown_are_noops (a : EdgeConfigDataAdapter)
    (key value : String) (time : Option Nat) (k : String) :
    a.set key value time = a ∧ a.shutdown = a ∧
      (a.set key value time).get k = a.get k ∧ a.shutdown.get k = a.get k :=
  ⟨rfl, rfl, rfl, rfl⟩

/-- C8: over any sequence of `get`, `set`, `shutdown` and
`supportsPollingUpdatesFor` calls, the `supportConfigSpecPolling` field
keeps the value it had before the sequence (only `initialize` can change
it). -/
theorem adapter_calls_preserve_polling_flag (a : EdgeConfigDataAdapter)
    (calls : List AdapterCall) :
    (runCalls a calls).supportConfigSpecPolling = a.supportConfigSpecPolling := by
  have hstep : ∀ (b : EdgeConfigDataAdapter) (c : AdapterCall), applyCall b c = b := by
    intro b c
    cases c <;> rfl
  induction calls generalizing a with
  | nil => rfl
  | cons c cs ih =>
      show (runCalls (applyCall a c) cs).supportConfigSpecPolling = _
      rw [hstep]
      exact ih a

/-- C9: every client read in `get` (for the accepted key) and in
`initialize` is of the constructor-supplied `configSpecsKey`; when that key
differs from `statsig.cache`, the requested key is never read; and the
not-found error message names the requested key `statsig.cache`, not the
lookup key that was actually absent. -/
theorem reads_use_configSpecsKey (a : EdgeConfigDataAdapter) :
    (a.get "statsig.cache").snd = [a.configSpecsKey] ∧
    a.init.snd = [a.configSpecsKey] ∧
    (a.configSpecsKey ≠ "statsig.cache" →
      "statsig.cache" ∉ (a.get "statsig.cache").snd ∧ "statsig.cache" ∉ a.init.snd) ∧
    (a.edgeConfigClient a.configSpecsKey = none →
      (a.get "statsig.cache").fst.error =
        some ("key (" ++ "statsig.cache" ++ ") does not exist")) := by
  rcases hc : a.edgeConfigClient a.configSpecsKey with _ | v <;>
    simp [EdgeConfigDataAdapter.get, EdgeConfigDataAdapter.init, hc] <;>
    intro hne <;> exact fun heq => hne heq.symm

/-- Witness for C9 on a concrete adapter whose lookup key is `item-key`. -/
theorem reads_use_configSpecsKey_witness :
    ("statsig.cache" ∉
        ((EdgeConfigDataAdapter.construct "item-key" (fun _ => none)).get "statsig.cache").snd) ∧
    ((EdgeConfigDataAdapter.construct "item-key" (fun _ => none)).get "statsig.cache").fst.error =
      some ("key (" ++ "statsig.cache" ++ ") does not exist") :=
  ⟨((reads_use_configSpecsKey _).2.2.1 (by decide)).1,
   (reads_use_configSpecsKey _).2.2.2 rfl⟩

/-- C10: `initialize` sets the polling flag only on a truthy value: when
the store holds a present but falsy value (`false`, `0`, the empty string,
`null`), `initialize` returns the adapter unchanged, so with the flag still
`false`, `supportsPollingUpdatesFor` answers `false` for the recognized key
even though the key exists in the store. -/
theorem init_falsy_leaves_flag_false (a : EdgeConfigDataAdapter) (v : EdgeValue)
    (hpresent : a.edgeConfigClient a.configSpecsKey = some v)
    (hfalsy : v.truthy = false) :
    a.init.fst = a ∧
    (a.supportConfigSpecPolling = false →
      a.init.fst.supportsPollingUpdatesFor "statsig.cache" = false) := by
  refine ⟨by simp [EdgeConfigDataAdapter.init, hpresent, hfalsy], fun hflag => ?_⟩
  simp [EdgeConfigDataAdapter.init, hpresent, hfalsy,
    EdgeConfigDataAdapter.supportsPollingUpdatesFor, hflag]

/-- Witness for C10 with the present falsy value `0`. -/
theorem init_falsy_leaves_flag_false_witness :
    (EdgeConfigDataAdapter.construct "item-key"
        (fun _ => some (EdgeValue.num 0))).init.fst.supportsPollingUpdatesFor
      "statsig.cache" = false :=
  (init_falsy_leaves_flag_false _ (EdgeValue.num 0) rfl rfl).2 rfl

/-- C4 fails as stated: with the present (but falsy) stored value `false`,
`initialize` performs a remote read that returns a present value, yet
`supportsPollingUpdatesFor` afterwards returns `false` for the recognized
key, not `true`. -/
theorem supportsPolling_present_value_counterexample :
    ((fun _ => some (EdgeValue.bool false)) : EdgeConfigStore) "item-key" =
        some (EdgeValue.bool false) ∧
      (EdgeConfigDataAdapter.construct "item-key"
          (fun _ => some (EdgeValue.bool false))).init.fst.supportsPollingUpdatesFor
        "statsig.cache" = false :=
  ⟨rfl, by decide⟩

/-- C4 (amended): after `initialize` on a freshly constructed adapter,
`supportsPollingUpdatesFor` returns `true` for the recognized key whenever
the remote read returned a present truthy value; it returns `false` when
the read found no value; and for every other key it returns `true`
regardless of initialization state. -/
theorem supportsPolling_after_init (key : String) (client : EdgeConfigStore)
    (other : String) :
    ((∃ v, client key = some v ∧ v.truthy = true) →
      (EdgeConfigDataAdapter.construct key client).init.fst.supportsPollingUpdatesFor
        "statsig.cache" = true) ∧
    (client key = none →
      (EdgeConfigDataAdapter.construct key client).init.fst.supportsPollingUpdatesFor
        "statsig.cache" = false) ∧
    (other ≠ "statsig.cache" →
      (EdgeConfigDataAdapter.construct key client).init.fst.supportsPollingUpdatesFor
        other = true) := by
  refine ⟨fun ⟨v, hv, htr⟩ => ?_, fun hnone => ?_, fun hother => ?_⟩
  · simp [EdgeConfigDataAdapter.construct, EdgeConfigDataAdapter.init, hv, htr,
      EdgeConfigDataAdapter.supportsPollingUpdatesFor]
  · simp [EdgeConfigDataAdapter.construct, EdgeConfigDataAdapter.init, hnone,
      EdgeConfigDataAdapter.supportsPollingUpdatesFor]
  · rcases hc : client key with _ | v <;>
      simp [EdgeConfigDataAdapter.construct, EdgeConfigDataAdapter.init, hc,
        EdgeConfigDataAdapter.supportsPollingUpdatesFor, hother]

/-- Witness for the amended C4: a truthy stored value yields `true`, an
absent one yields `false`. -/
theorem supportsPolling_after_init_witness :
    ((EdgeConfigDataAdapter.construct "item-key"
        (fun _ => some (EdgeValue.str "specs"))).init.fst.supportsPollingUpdatesFor
      "statsig.cache" = true) ∧
    ((EdgeConfigDataAdapter.construct "item-key"
        (fun _ => none)).init.fst.supportsPollingUpdatesFor
      "statsig.cache" = false) :=
  ⟨(supportsPolling_after_init "item-key" _ "x").1 ⟨EdgeValue.str "specs", rfl, by decide⟩,
   (supportsPolling_after_init "item-key" _ "x").2.1 rfl⟩

/-- C6: on each request the handler builds a fresh adapter (polling flag
`false`) from `EDGE_CONFIG_ITEM_KEY`, initializes the SDK with the server
secret and that adapter, evaluates `statsig_example` and extracts the
`bucket` field with fallback `default`, flushes, and returns an empty props
object — in particular the evaluated bucket is not among the returned
props. -/
theorem getServerSideProps_flow {σ : Type} (sdk : StatsigSDK σ) (env : Env)
    (edgeConfig : EdgeConfigStore) (ctx : RequestContext) :
    (getServerSideProps sdk env edgeConfig ctx).fst.props = [] ∧
    (EdgeConfigDataAdapter.construct env.EDGE_CONFIG_ITEM_KEY
        edgeConfig).supportConfigSpecPolling = false ∧
    (getServerSideProps sdk env edgeConfig ctx).snd.fst =
      sdk.getConfigValue
        (sdk.sdkInit env.STATSIG_SERVER_API_KEY
          (EdgeConfigDataAdapter.construct env.EDGE_CONFIG_ITEM_KEY edgeConfig))
        "1234" "statsig_example" "bucket" "default" ∧
    (getServerSideProps sdk env edgeConfig ctx).snd.snd =
      sdk.flush
        (sdk.sdkInit env.STATSIG_SERVER_API_KEY
          (EdgeConfigDataAdapter.construct env.EDGE_CONFIG_ITEM_KEY edgeConfig)) :=
  ⟨rfl, rfl, rfl, rfl⟩

/-- C7: the handler's output is identical for any two request contexts
(cookies included) — the experiment evaluation receives the fixed literal
user identifier `1234`, so the bucket cannot depend on the request's
cookie. -/
theorem getServerSideProps_fixed_user_id {σ : Type} (sdk : StatsigSDK σ)
    (env : Env) (edgeConfig : EdgeConfigStore) (c1 c2 : RequestContext) :
    getServerSideProps sdk env edgeConfig c1 = getServerSideProps sdk env edgeConfig c2 ∧
    (getServerSideProps sdk env edgeConfig c1).snd.fst =
      sdk.getConfigValue
        (sdk.sdkInit env.STATSIG_SERVER_API_KEY
          (EdgeConfigDataAdapter.construct env.EDGE_CONFIG_ITEM_KEY edgeConfig))
        "1234" "statsig_example" "bucket" "default" :=
  ⟨rfl, rfl⟩

/-- C3: for the recognized key with a present stored value `v`, `get`
returns exactly the JSON serialization of `v` as its result (and no
error), and the serialization is content-preserving: any value with the
same serialized text is `v` itself. -/
theorem get_present_serializes (a : EdgeConfigDataAdapter) (v : EdgeValue)
    (h : a.edgeConfigClient a.configSpecsKey = some v) :
    a.get "statsig.cache" =
      ({ result := some (jsonStringify v), error := none }, [a.configSpecsKey]) ∧
    ∀ w, jsonStringify w = jsonStringify v → w = v := by
  constructor
  · simp [EdgeConfigDataAdapter.get, h]
  · exact fun w hw => jsonStringify_inj w v hw

/-- Witness for C3 on the stored value `"on"`, whose serialization
evaluates to the quoted text. -/
theorem get_present_serializes_witness :
    ((EdgeConfigDataAdapter.construct "item-key"
        (fun _ => some (EdgeValue.str "on"))).get "statsig.cache" =
      ({ result := some (jsonStringify (EdgeValue.str "on")), error := none },
       ["item-key"])) ∧
    jsonStringify (EdgeValue.str "on") = "\"on\"" :=
  ⟨(get_present_serializes _ (EdgeValue.str "on") rfl).1, rfl⟩

end StatsigEdgeConfig
